import Mathlib

/-!
Verification development for the rs-clob-client repository.

The first part embeds the Data and Gamma API clients from
src/data/client.rs and src/gamma/client.rs: URL parsing and display
(mirroring the url crate behaviour the code relies on), default header
construction, client construction, request-URL assembly, and the status
endpoint response handling.

Later parts model, from the design document, the components whose code is
not part of the two embedded client files: the credential store and
authentication state machine, the order builder with tick-size
normalization, and the market-parameter cache with in-flight fetch
deduplication.
-/

/-- A parsed URL, with the fields the client code observes: scheme, host
and path. Mirrors the url crate: for special schemes an empty path is
normalized to a single slash, so the display form of a host-only URL ends
with a slash while the display form of a URL with a non-empty path keeps
that path verbatim. -/
structure Url where
  scheme : String
  host : String
  path : String
deriving DecidableEq

/-- Split a character list at the first occurrence of the scheme
separator, yielding the characters before it and the characters after. -/
def splitSchemeSep : List Char → Option (List Char × List Char)
  | [] => none
  | ':' :: '/' :: '/' :: rest => some ([], rest)
  | c :: rest => (splitSchemeSep rest).map (fun p => (c :: p.1, p.2))

/-- Model of Url::parse restricted to the shape the clients use:
a nonempty scheme, the literal separator, a nonempty host, and an
optional path. An empty path is normalized to a single slash. -/
def parseUrl (s : String) : Option Url :=
  match splitSchemeSep s.data with
  | none => none
  | some (schemeChars, rest) =>
    if schemeChars.isEmpty then none
    else
      let hostChars := rest.takeWhile (fun c => c != '/')
      let pathChars := rest.dropWhile (fun c => c != '/')
      if hostChars.isEmpty then none
      else
        some { scheme := ⟨schemeChars⟩, host := ⟨hostChars⟩,
               path := if pathChars.isEmpty then "/" else ⟨pathChars⟩ }

/-- The display form of a parsed URL, as interpolated by the format macro
in the get methods of both clients. -/
def Url.display (u : Url) : String :=
  u.scheme ++ "://" ++ u.host ++ u.path

/-- A header value is valid when every character is a visible ASCII
character or a horizontal tab; HeaderValue::from_static requires this. -/
def isValidHeaderValue (s : String) : Bool :=
  s.data.all (fun c => c == '\t' || (Nat.ble 32 c.toNat && Nat.ble c.toNat 126))

/-- Model of HeaderValue::from_static: yields the value when it is valid. -/
def headerValueFromStatic (s : String) : Option String :=
  if isValidHeaderValue s then some s else none

/-- The default header set both Client::new functions install, built from
the four static values in the source. -/
def mkDefaultHeaders : Option (List (String × String)) :=
  match headerValueFromStatic "rs_clob_client", headerValueFromStatic "*/*",
      headerValueFromStatic "keep-alive", headerValueFromStatic "application/json" with
  | some a, some b, some c, some d =>
    some [("User-Agent", a), ("Accept", b), ("Connection", c), ("Content-Type", d)]
  | _, _, _, _ => none

/-- The underlying HTTP client handle, carrying its default headers. -/
structure ReqClient where
  defaultHeaders : List (String × String)
deriving DecidableEq

/-- Model of ReqwestClient::builder().default_headers(h).build(): with
only default headers configured, construction succeeds. -/
def reqwestBuild (hs : List (String × String)) : Option ReqClient :=
  some { defaultHeaders := hs }

/-- The Data API client from src/data/client.rs. -/
structure DataClient where
  host : Url
  client : ReqClient
deriving DecidableEq

/-- Data Client::new: build the default headers, build the HTTP client,
parse the host URL, and assemble the client; any failure propagates. -/
def DataClient.new (host : String) : Option DataClient :=
  match mkDefaultHeaders with
  | none => none
  | some hs =>
    match reqwestBuild hs with
    | none => none
    | some cl =>
      match parseUrl host with
      | none => none
      | some u => some { host := u, client := cl }

/-- Data Client::default: Client::new on the documented default endpoint,
whose success the source asserts. -/
def DataClient.defaultClient : DataClient :=
  (DataClient.new "https://data-api.polymarket.com").getD
    { host := { scheme := "", host := "", path := "" }, client := { defaultHeaders := [] } }

/-- The URL string built by the get method of the Data client: direct
concatenation of the host display form, the endpoint path and the query
string. -/
def DataClient.requestUrl (c : DataClient) (path query : String) : String :=
  c.host.display ++ path ++ query

/-- The Gamma API client from src/gamma/client.rs. -/
structure GammaClient where
  host : Url
  client : ReqClient
deriving DecidableEq

/-- Gamma Client::new: identical construction logic to the Data client. -/
def GammaClient.new (host : String) : Option GammaClient :=
  match mkDefaultHeaders with
  | none => none
  | some hs =>
    match reqwestBuild hs with
    | none => none
    | some cl =>
      match parseUrl host with
      | none => none
      | some u => some { host := u, client := cl }

/-- Gamma Client::default: Client::new on the documented default endpoint. -/
def GammaClient.defaultClient : GammaClient :=
  (GammaClient.new "https://gamma-api.polymarket.com").getD
    { host := { scheme := "", host := "", path := "" }, client := { defaultHeaders := [] } }

/-- The URL string built by the get method of the Gamma client. -/
def GammaClient.requestUrl (c : GammaClient) (path query : String) : String :=
  c.host.display ++ path ++ query

/-- The URL string built by the status method of the Gamma client. -/
def GammaClient.statusUrl (c : GammaClient) : String :=
  c.host.display ++ "status"

/-- The error taxonomy the clients surface: a typed HTTP status error
carrying status code, method, path and body text; a transport failure;
and a local build failure. -/
inductive ClientError where
  | status (code : Nat) (method : String) (path : String) (message : String)
  | transport (msg : String)
  | buildFailure
deriving DecidableEq

/-- StatusCode::is_success: the 2xx range. -/
def isSuccessCode (code : Nat) : Bool :=
  200 ≤ code && code < 300

/-- The response handling of the status method of the Gamma client: on a
non-success status code, read the body text, defaulting to the empty
string if the read fails, and return the typed status error; on success,
return the body text, propagating a body read failure as a transport
error. The bodyText argument models the outcome of response.text(). -/
def GammaClient.statusOp (code : Nat) (bodyText : Option String) : Except ClientError String :=
  if !isSuccessCode code then
    .error (.status code "GET" "status" (bodyText.getD ""))
  else
    match bodyText with
    | some t => .ok t
    | none => .error (.transport "body read failed")

/-- Modelled from the spec: the shared request helper (crate::request) is
not among the embedded files; per the external interface section, the
transport accepts method, path and body and returns a deserialized
response or a typed HTTP error carrying status code, method, path and
body text. -/
def processResponse (α : Type) (method path : String) (code : Nat) (body : String)
    (deser : String → Option α) : Except ClientError α :=
  if isSuccessCode code then
    match deser body with
    | some v => .ok v
    | none => .error (.transport "deserialization failed")
  else
    .error (.status code method path body)

/-- The concrete header list the four static values produce. -/
def defaultHeaderList : List (String × String) :=
  [("User-Agent", "rs_clob_client"), ("Accept", "*/*"),
   ("Connection", "keep-alive"), ("Content-Type", "application/json")]

theorem mkDefaultHeaders_eq : mkDefaultHeaders = some defaultHeaderList := rfl

theorem dataClient_new_eq (h : String) :
    DataClient.new h =
      (parseUrl h).map (fun u => { host := u, client := { defaultHeaders := defaultHeaderList } }) := by
  unfold DataClient.new
  rw [mkDefaultHeaders_eq]
  cases hp : parseUrl h <;> rfl

theorem gammaClient_new_eq (h : String) :
    GammaClient.new h =
      (parseUrl h).map (fun u => { host := u, client := { defaultHeaders := defaultHeaderList } }) := by
  unfold GammaClient.new
  rw [mkDefaultHeaders_eq]
  cases hp : parseUrl h <;> rfl

/-- The Data client obtained from the host string without a trailing
slash on its path. -/
def dataDemo : DataClient :=
  { host := { scheme := "https", host := "example.com", path := "/api" },
    client := { defaultHeaders := defaultHeaderList } }

/-- The Gamma client obtained from the host string without a trailing
slash on its path. -/
def gammaDemo : GammaClient :=
  { host := { scheme := "https", host := "example.com", path := "/api" },
    client := { defaultHeaders := defaultHeaderList } }

/-- C8: every endpoint method of the Data and Gamma clients builds its
request URL by direct string concatenation of the display form of the
host URL, the endpoint path and the query string; consequently a host URL
whose path does not end with a slash, such as one parsed from
https://example.com/api, yields endpoint URLs with no separator between
the host path and the endpoint path. -/
theorem C8_request_url_concatenation :
    (∀ (c : DataClient) (p q : String), c.requestUrl p q = c.host.display ++ p ++ q) ∧
    (∀ (c : GammaClient) (p q : String), c.requestUrl p q = c.host.display ++ p ++ q) ∧
    (∀ (c : GammaClient), c.statusUrl = c.host.display ++ "status") ∧
    DataClient.new "https://example.com/api" = some dataDemo ∧
    GammaClient.new "https://example.com/api" = some gammaDemo ∧
    (∀ q, dataDemo.requestUrl "positions" q = "https://example.com/apipositions" ++ q) ∧
    (∀ q, gammaDemo.requestUrl "events" q = "https://example.com/apievents" ++ q) ∧
    gammaDemo.statusUrl = "https://example.com/apistatus" :=
  ⟨fun _ _ _ => rfl, fun _ _ _ => rfl, fun _ => rfl, rfl, rfl,
   fun _ => rfl, fun _ => rfl, rfl⟩

/-- C9: Client::new for the Data and Gamma clients returns Ok exactly
when the host string parses as a URL, since the fixed static header set
always builds; on success the host field of the client is the parsed
URL; and Client::default equals Client::new applied to the documented
default endpoint. -/
theorem C9_client_new_spec :
    (∀ h : String,
      (DataClient.new h).isSome = (parseUrl h).isSome ∧
      (GammaClient.new h).isSome = (parseUrl h).isSome ∧
      (∀ c, DataClient.new h = some c → some c.host = parseUrl h) ∧
      (∀ c, GammaClient.new h = some c → some c.host = parseUrl h)) ∧
    DataClient.new "https://data-api.polymarket.com" = some DataClient.defaultClient ∧
    GammaClient.new "https://gamma-api.polymarket.com" = some GammaClient.defaultClient := by
  refine ⟨fun h => ?_, rfl, rfl⟩
  rw [dataClient_new_eq h, gammaClient_new_eq h]
  cases hp : parseUrl h with
  | none => simp
  | some u =>
    refine ⟨rfl, rfl, ?_, ?_⟩ <;> intro c hc <;>
      simp only [Option.map_some', Option.some.injEq] at hc <;> rw [← hc]

theorem C9_witness :
    (DataClient.new "https://example.com/api").isSome =
      (parseUrl "https://example.com/api").isSome ∧
    some dataDemo.host = parseUrl "https://example.com/api" ∧
    some gammaDemo.host = parseUrl "https://example.com/api" :=
  ⟨(C9_client_new_spec.1 "https://example.com/api").1,
   (C9_client_new_spec.1 "https://example.com/api").2.2.1 dataDemo rfl,
   (C9_client_new_spec.1 "https://example.com/api").2.2.2 gammaDemo rfl⟩

/-- C10: in the status operation of the Gamma client, when the response
status code is not a success and reading the body fails, the returned
error still carries the status code, the GET method and the status path,
with the message defaulting to the empty string; the body read failure
does not replace the status error. -/
theorem C10_status_body_read_failure :
    ∀ code : Nat, isSuccessCode code = false →
      GammaClient.statusOp code none = .error (.status code "GET" "status" "") := by
  intro code h
  simp [GammaClient.statusOp, h]

theorem C10_witness :
    isSuccessCode 500 = false ∧
    GammaClient.statusOp 500 none = .error (.status 500 "GET" "status" "") :=
  ⟨by decide, C10_status_body_read_failure 500 (by decide)⟩

/-- C4: whenever the HTTP response carries a non-success status code, the
client operation returns the typed status error carrying the status code,
the method, the request path and the response body text, never a
deserialized response; the status operation of the Gamma client does the
same with method GET and path status. -/
theorem C4_http_error_surfaced :
    ∀ code : Nat, isSuccessCode code = false →
      (∀ (α : Type) (method path body : String) (deser : String → Option α),
        processResponse α method path code body deser = .error (.status code method path body)) ∧
      (∀ bodyText : String,
        GammaClient.statusOp code (some bodyText) = .error (.status code "GET" "status" bodyText)) := by
  intro code h
  constructor
  · intro α method path body deser
    simp [processResponse, h]
  · intro bt
    simp [GammaClient.statusOp, h]

theorem C4_witness :
    processResponse Nat "GET" "positions" 404 "not found" (fun _ => none) =
      .error (.status 404 "GET" "positions" "not found") ∧
    GammaClient.statusOp 404 (some "not found") = .error (.status 404 "GET" "status" "not found") :=
  ⟨(C4_http_error_surfaced 404 (by decide)).1 Nat "GET" "positions" "not found" (fun _ => none),
   (C4_http_error_surfaced 404 (by decide)).2 "not found"⟩

/-- Modelled from the spec: the wallet signing capability, opaque to the
credential store and identified by its address; the authentication engine
borrows it only for the duration of a signing call. The credential store
and authentication engine are not among the embedded files. -/
structure Wallet where
  address : Nat
deriving DecidableEq

/-- Modelled from the spec: derived API credentials, a key, a secret and
a passphrase, immutable once produced. -/
structure ApiCredentials where
  key : String
  secret : String
  passphrase : String
deriving DecidableEq

/-- Modelled from the spec: the three authentication states of a client. -/
inductive AuthState where
  | unauthenticated
  | authenticated
  | builderAuthenticated
deriving DecidableEq

/-- The position of a state in the forward progression of the state
machine. -/
def AuthState.rank : AuthState → Nat
  | .unauthenticated => 0
  | .authenticated => 1
  | .builderAuthenticated => 2

/-- Modelled from the spec: the error taxonomy of the authentication
layer. -/
inductive AuthError where
  | unauthenticatedError
  | authorizationError
  | authenticationError
deriving DecidableEq

/-- Modelled from the spec: the shared client state, holding the
authentication state, the trading credentials and the builder
credentials; the two credential sets are independent. -/
structure ClientState where
  auth : AuthState
  trading : Option ApiCredentials
  builder : Option ApiCredentials
deriving DecidableEq

/-- Modelled from the spec: authenticate performs the L1 handshake
through the credential exchange, a deterministic function of the wallet
since the exchange returns existing credentials when they are already
known; on success the state moves forward to authenticated, never
backward, and the trading credentials are stored; an exchange failure
propagates as an authentication error. -/
def authenticate (exchange : Wallet → Except AuthError ApiCredentials) (w : Wallet)
    (s : ClientState) : Except AuthError ClientState :=
  match exchange w with
  | .error e => .error e
  | .ok creds =>
    .ok { s with
          auth := if s.auth = .unauthenticated then .authenticated else s.auth,
          trading := some creds }

/-- Modelled from the spec: promote_to_builder attaches a second,
independently scoped credential set used only for builder-attributed
endpoints; it fails when the client is not already authenticated and it
does not touch the trading credentials. -/
def promoteToBuilder (bc : ApiCredentials) (s : ClientState) : Except AuthError ClientState :=
  if s.auth = .authenticated then
    .ok { s with auth := .builderAuthenticated, builder := some bc }
  else
    .error .authorizationError

/-- A network request the modelled operations may issue, identified by
its path. -/
inductive NetRequest where
  | request (path : String)
deriving DecidableEq

/-- Modelled from the spec: create_builder_api_key is an authenticated
operation registering the caller as a builder; before authentication it
fails locally, afterwards it issues one network request and returns
fresh builder credentials without changing the client state. -/
def createBuilderApiKey (fresh : ApiCredentials) (s : ClientState) :
    List NetRequest × Except AuthError ApiCredentials :=
  if s.auth = .unauthenticated then
    ([], .error .unauthenticatedError)
  else
    ([.request "create-builder-api-key"], .ok fresh)

/-- Modelled from the spec: a builder-attributed read operation; in any
state other than builder-authenticated it fails with an authorization
error and issues no network request. -/
def builderTrades (s : ClientState) : List NetRequest × Except AuthError (List Nat) :=
  if s.auth = .builderAuthenticated then
    ([.request "builder-trades"], .ok [])
  else
    ([], .error .authorizationError)

/-- Modelled from the spec: the builder key listing operation, with the
same builder-state gate. -/
def builderApiKeys (s : ClientState) : List NetRequest × Except AuthError (List String) :=
  if s.auth = .builderAuthenticated then
    ([.request "builder-api-keys"], .ok [])
  else
    ([], .error .authorizationError)

/-- The operations a caller can invoke against the client state. -/
inductive Operation where
  | authenticateOp (exchange : Wallet → Except AuthError ApiCredentials) (w : Wallet)
  | promoteOp (bc : ApiCredentials)
  | createBuilderKeyOp (fresh : ApiCredentials)
  | builderTradesOp
  | builderApiKeysOp
  | publicOp

/-- Running one operation against the client state: the state-changing
operations return their new state, the others leave it unchanged. -/
def Operation.apply : Operation → ClientState → Except AuthError ClientState
  | .authenticateOp ex w, s => authenticate ex w s
  | .promoteOp bc, s => promoteToBuilder bc s
  | .createBuilderKeyOp fresh, s => (createBuilderApiKey fresh s).2.map (fun _ => s)
  | .builderTradesOp, s => (builderTrades s).2.map (fun _ => s)
  | .builderApiKeysOp, s => (builderApiKeys s).2.map (fun _ => s)
  | .publicOp, s => .ok s

/-- One step of a caller session: a failing operation leaves the state
unchanged, a succeeding one installs the new state. -/
def stepOp (s : ClientState) (op : Operation) : ClientState :=
  match op.apply s with
  | .ok s' => s'
  | .error _ => s

/-- A whole session: fold the operations over the state. -/
def runOps (ops : List Operation) (s : ClientState) : ClientState :=
  ops.foldl stepOp s

theorem stepOp_rank_le (s : ClientState) (op : Operation) :
    s.auth.rank ≤ (stepOp s op).auth.rank := by
  cases op with
  | authenticateOp ex w =>
    simp only [stepOp, Operation.apply, authenticate]
    cases hx : ex w with
    | error e => exact Nat.le_refl _
    | ok c =>
      by_cases h : s.auth = .unauthenticated
      · simp [h, AuthState.rank]
      · simp [h]
  | promoteOp bc =>
    simp only [stepOp, Operation.apply, promoteToBuilder]
    by_cases h : s.auth = .authenticated
    · simp [h, AuthState.rank]
    · simp [h]
  | createBuilderKeyOp fresh =>
    simp only [stepOp, Operation.apply, createBuilderApiKey]
    by_cases h : s.auth = .unauthenticated <;> simp [h, Except.map]
  | builderTradesOp =>
    simp only [stepOp, Operation.apply, builderTrades]
    by_cases h : s.auth = .builderAuthenticated <;> simp [h, Except.map]
  | builderApiKeysOp =>
    simp only [stepOp, Operation.apply, builderApiKeys]
    by_cases h : s.auth = .builderAuthenticated <;> simp [h, Except.map]
  | publicOp => exact Nat.le_refl _

/-- C2: the authentication state of a client only moves forward through
unauthenticated, authenticated, builder-authenticated: no sequence of
operations ever lowers the rank of the state. -/
theorem C2_auth_state_monotonic :
    ∀ (ops : List Operation) (s : ClientState),
      s.auth.rank ≤ (runOps ops s).auth.rank := by
  intro ops
  induction ops with
  | nil => intro s; exact Nat.le_refl _
  | cons op rest ih =>
    intro s
    exact Nat.le_trans (stepOp_rank_le s op) (ih (stepOp s op))

/-- C5: every builder-attributed operation invoked on a client that is
not builder-authenticated fails with an authorization error and issues no
network request; promote_to_builder fails unless the client is already
authenticated, and when it succeeds it installs the builder credentials
and moves to the builder-authenticated state without touching the trading
credentials. -/
theorem C5_builder_gate :
    ∀ s : ClientState,
      (s.auth ≠ .builderAuthenticated →
        builderTrades s = ([], .error .authorizationError) ∧
        builderApiKeys s = ([], .error .authorizationError)) ∧
      (s.auth ≠ .authenticated →
        ∀ bc, promoteToBuilder bc s = .error .authorizationError) ∧
      (∀ bc s', promoteToBuilder bc s = .ok s' →
        s'.trading = s.trading ∧ s'.builder = some bc ∧ s'.auth = .builderAuthenticated) := by
  intro s
  refine ⟨fun h => ?_, fun h bc => ?_, fun bc s' h => ?_⟩
  · constructor <;> simp [builderTrades, builderApiKeys, h]
  · simp [promoteToBuilder, h]
  · unfold promoteToBuilder at h
    by_cases ha : s.auth = .authenticated
    · rw [if_pos ha] at h
      injection h with h1
      rw [← h1]
      exact ⟨rfl, rfl, rfl⟩
    · rw [if_neg ha] at h
      exact Except.noConfusion h

/-- Demonstration credentials used by the concrete instantiations. -/
def demoCreds : ApiCredentials :=
  { key := "demo-key", secret := "demo-secret", passphrase := "demo-pass" }

theorem C5_witness :
    (ClientState.mk .unauthenticated none none).auth ≠ .builderAuthenticated ∧
    builderTrades { auth := .unauthenticated, trading := none, builder := none } =
      ([], .error .authorizationError) ∧
    promoteToBuilder demoCreds { auth := .unauthenticated, trading := none, builder := none } =
      .error .authorizationError ∧
    ({ auth := .builderAuthenticated, trading := some demoCreds, builder := some demoCreds
       : ClientState }).trading =
      ({ auth := .authenticated, trading := some demoCreds, builder := none : ClientState }).trading :=
  ⟨by decide,
   ((C5_builder_gate { auth := .unauthenticated, trading := none, builder := none }).1
     (by decide)).1,
   (C5_builder_gate { auth := .unauthenticated, trading := none, builder := none }).2.1
     (by decide) demoCreds,
   (((C5_builder_gate { auth := .authenticated, trading := some demoCreds, builder := none }).2.2
     demoCreds _ rfl)).1⟩

/-- C6: authenticating a second time with the same wallet succeeds and
yields the same stored trading credentials as the first call, leaving the
authentication state where it was: authentication is idempotent in
effect. -/
theorem C6_authenticate_idempotent :
    ∀ (exchange : Wallet → Except AuthError ApiCredentials) (w : Wallet) (s s1 : ClientState),
      authenticate exchange w s = .ok s1 →
      ∃ s2, authenticate exchange w s1 = .ok s2 ∧
        s2.trading = s1.trading ∧ s2.auth = s1.auth := by
  intro ex w s s1 h
  unfold authenticate at h ⊢
  cases hx : ex w with
  | error e =>
    rw [hx] at h
    exact Except.noConfusion h
  | ok c =>
    rw [hx] at h
    injection h with h1
    subst h1
    refine ⟨_, rfl, rfl, ?_⟩
    by_cases hu : s.auth = .unauthenticated <;> simp [hu]

/-- A deterministic credential exchange used by the concrete
instantiations. -/
def exchangeDemo : Wallet → Except AuthError ApiCredentials :=
  fun _ => .ok demoCreds

theorem C6_witness :
    ∃ s2, authenticate exchangeDemo { address := 1 }
        { auth := .authenticated, trading := some demoCreds, builder := none } = .ok s2 ∧
      s2.trading = some demoCreds ∧ s2.auth = .authenticated :=
  C6_authenticate_idempotent exchangeDemo { address := 1 }
    { auth := .unauthenticated, trading := none, builder := none }
    { auth := .authenticated, trading := some demoCreds, builder := none } rfl

/-- Modelled from the spec: the fixed-precision decimal type of the
numeric domain, a signed integer mantissa scaled by a power of ten, the
representation the order builder uses; the order builder is not among the
embedded files. The value denoted is mantissa divided by ten to the
scale. -/
structure Dec where
  mantissa : Int
  scale : Nat
deriving DecidableEq

/-- Two decimals denote the same numeric value exactly when their
mantissas agree after cross scaling. -/
def Dec.sameValue (a b : Dec) : Prop :=
  a.mantissa * 10 ^ b.scale = b.mantissa * 10 ^ a.scale

/-- Round-half-to-even of the exact quotient of two integers with a
positive denominator: take the floor, compare twice the remainder with
the denominator, and on a tie keep the even neighbour. -/
def roundHalfEvenQuot (num den : Int) : Int :=
  let f := Int.fdiv num den
  let r := num - f * den
  if 2 * r < den then f
  else if den < 2 * r then f + 1
  else if f % 2 = 0 then f else f + 1

/-- The number of ticks a price covers, rounded half to even: the exact
quotient of the two decimal values handed to the integer rounding. -/
def ticksRounded (tick p : Dec) : Int :=
  roundHalfEvenQuot (p.mantissa * 10 ^ tick.scale) (tick.mantissa * 10 ^ p.scale)

/-- Modelled from the spec: price normalization onto the tick-size grid
with round-half-to-even, the result carried at the tick scale. -/
def normalizePrice (tick p : Dec) : Dec :=
  { mantissa := ticksRounded tick p * tick.mantissa, scale := tick.scale }

/-- A decimal rounded half to even to a whole number of units. -/
def Dec.roundedUnits (d : Dec) : Int :=
  roundHalfEvenQuot d.mantissa (10 ^ d.scale)

/-- Modelled from the spec: the market parameters a token resolves to:
its tick size and the negative-risk flag. -/
structure MarketParameters where
  tokenId : Nat
  tickSize : Dec
  negRisk : Bool
deriving DecidableEq

/-- The side of an order. -/
inductive Side where
  | buy
  | sell
deriving DecidableEq

/-- The two order kinds. -/
inductive OrderKind where
  | market
  | limit
deriving DecidableEq

/-- Modelled from the spec: the user-supplied order intent; a limit
intent carries price and size, a market intent carries the notional
amount, and the expiration is optional with absence meaning
good-till-cancelled. -/
structure OrderIntent where
  side : Side
  tokenId : Nat
  kind : OrderKind
  price : Option Dec
  size : Option Dec
  amount : Option Dec
  expiration : Option Nat
deriving DecidableEq

/-- Modelled from the spec: intent shape validation; exactly the fields
of the order kind must be present, anything mixed or missing is
rejected. -/
def validIntentShape (i : OrderIntent) : Bool :=
  match i.kind with
  | .limit => i.price.isSome && i.size.isSome && i.amount.isNone
  | .market => i.amount.isSome && i.price.isNone && i.size.isNone

/-- Modelled from the spec: the canonical order structure eligible for
signing, with the integer-scaled price and size, the expiration with
zero meaning good-till-cancelled, the negative-risk flag from the market
parameters and the replay salt. -/
structure CanonicalOrder where
  side : Side
  tokenId : Nat
  priceField : Int
  sizeField : Int
  expiration : Nat
  negRisk : Bool
  salt : Nat
deriving DecidableEq

/-- Modelled from the spec: the failure modes of order construction. -/
inductive OrderError where
  | construction (msg : String)
  | fetchFailed
  | signingFailed
deriving DecidableEq

/-- Modelled from the spec: order construction. Validate the intent
shape first, rejecting a mismatch locally as a construction error;
resolve the market parameters, the only network access, recorded in the
first component; normalize price and size with round-half-to-even,
rejecting a size that rounds to zero; and assemble the canonical order.
For a market order the price is implied by the current book, which is
outside this model. -/
def buildOrder (fetch : Nat → Except Unit MarketParameters) (salt : Nat) (i : OrderIntent) :
    List Nat × Except OrderError CanonicalOrder :=
  if validIntentShape i then
    match fetch i.tokenId with
    | .error _ => ([i.tokenId], .error .fetchFailed)
    | .ok mp =>
      match i.kind with
      | .limit =>
        let priceField := ticksRounded mp.tickSize (i.price.getD { mantissa := 0, scale := 0 })
        let sizeField := (i.size.getD { mantissa := 0, scale := 0 }).roundedUnits
        if sizeField = 0 then
          ([i.tokenId], .error (.construction "size rounds to zero"))
        else
          ([i.tokenId],
           .ok { side := i.side, tokenId := i.tokenId, priceField := priceField,
                 sizeField := sizeField, expiration := i.expiration.getD 0,
                 negRisk := mp.negRisk, salt := salt })
      | .market =>
        let sizeField := (i.amount.getD { mantissa := 0, scale := 0 }).roundedUnits
        if sizeField = 0 then
          ([i.tokenId], .error (.construction "size rounds to zero"))
        else
          ([i.tokenId],
           .ok { side := i.side, tokenId := i.tokenId, priceField := 0,
                 sizeField := sizeField, expiration := i.expiration.getD 0,
                 negRisk := mp.negRisk, salt := salt })
  else
    ([], .error (.construction "intent shape mismatch"))

/-- The demonstration market: tick size one hundredth, no negative
risk. -/
def demoMarket : MarketParameters :=
  { tokenId := 7, tickSize := { mantissa := 1, scale := 2 }, negRisk := false }

/-- A resolver that always returns the demonstration market. -/
def fetchDemo : Nat → Except Unit MarketParameters :=
  fun _ => .ok demoMarket

/-- The limit intent with the raw price of five thousand seven
ten-thousandths and size one hundred. -/
def intentRaw : OrderIntent :=
  { side := .buy, tokenId := 7, kind := .limit,
    price := some { mantissa := 5007, scale := 4 },
    size := some { mantissa := 100, scale := 0 }, amount := none, expiration := none }

/-- The limit intent with price one half and size one hundred. -/
def intentHalf : OrderIntent :=
  { side := .buy, tokenId := 7, kind := .limit,
    price := some { mantissa := 50, scale := 2 },
    size := some { mantissa := 100, scale := 0 }, amount := none, expiration := none }

/-- Equality of Except values is decidable when it is on both sides. -/
instance {e a : Type} [DecidableEq e] [DecidableEq a] : DecidableEq (Except e a) := fun x y =>
  match x, y with
  | .ok u, .ok v =>
    if h : u = v then isTrue (by rw [h])
    else isFalse (fun hc => h (Except.ok.inj hc))
  | .error u, .error v =>
    if h : u = v then isTrue (by rw [h])
    else isFalse (fun hc => h (Except.error.inj hc))
  | .ok _, .error _ => isFalse (fun hc => Except.noConfusion hc)
  | .error _, .ok _ => isFalse (fun hc => Except.noConfusion hc)

/-- Value equality of decimals is decidable. -/
instance (a b : Dec) : Decidable (Dec.sameValue a b) :=
  inferInstanceAs (Decidable (a.mantissa * 10 ^ b.scale = b.mantissa * 10 ^ a.scale))

/-- C3: on a market with tick size one hundredth, the raw limit price of
five thousand seven ten-thousandths normalizes to fifty hundredths under
round-half-to-even, ties going to the even tick count; the canonical
order encodes the normalized, tick-scaled value of fifty, not the raw
input, whose value differs from the normalized price; an intent whose
normalized size rounds to zero is rejected with a construction error;
and the buy limit intent at price one half and size one hundred with no
expiration yields the canonical order with price field fifty, size field
one hundred, expiration zero and negative risk false. -/
theorem C3_limit_normalization :
    normalizePrice { mantissa := 1, scale := 2 } { mantissa := 5007, scale := 4 } =
      { mantissa := 50, scale := 2 } ∧
    ticksRounded { mantissa := 1, scale := 2 } { mantissa := 505, scale := 3 } = 50 ∧
    ticksRounded { mantissa := 1, scale := 2 } { mantissa := 515, scale := 3 } = 52 ∧
    (buildOrder fetchDemo 1 intentRaw).2 =
      .ok { side := .buy, tokenId := 7, priceField := 50, sizeField := 100,
            expiration := 0, negRisk := false, salt := 1 } ∧
    ¬ Dec.sameValue (normalizePrice { mantissa := 1, scale := 2 } { mantissa := 5007, scale := 4 })
        { mantissa := 5007, scale := 4 } ∧
    (buildOrder fetchDemo 1 intentHalf).2 =
      .ok { side := .buy, tokenId := 7, priceField := 50, sizeField := 100,
            expiration := 0, negRisk := false, salt := 1 } ∧
    (∀ (fetch : Nat → Except Unit MarketParameters) (salt : Nat) (i : OrderIntent)
        (mp : MarketParameters),
      validIntentShape i = true → i.kind = .limit → fetch i.tokenId = .ok mp →
      (i.size.getD { mantissa := 0, scale := 0 }).roundedUnits = 0 →
      (buildOrder fetch salt i).2 = .error (.construction "size rounds to zero")) := by
  refine ⟨by decide, by decide, by decide, by decide, by decide, by decide, ?_⟩
  intro fetch salt i mp h1 h2 hf h4
  simp only [buildOrder, h1, if_true]
  rw [hf]
  simp [h2, h4]

/-- A limit intent whose size of one thousandth rounds to zero units. -/
def intentTiny : OrderIntent :=
  { side := .buy, tokenId := 7, kind := .limit,
    price := some { mantissa := 50, scale := 2 },
    size := some { mantissa := 1, scale := 3 }, amount := none, expiration := none }

theorem C3_witness :
    validIntentShape intentTiny = true ∧
    (buildOrder fetchDemo 1 intentTiny).2 = .error (.construction "size rounds to zero") :=
  ⟨by decide,
   C3_limit_normalization.2.2.2.2.2.2 fetchDemo 1 intentTiny demoMarket (by decide) (by decide)
     rfl (by decide)⟩

/-- C7: an order intent whose field shape does not match its order kind
is rejected by order construction with a construction error, never a
signing error, before any network access: the network log is empty, so
the market parameters were not resolved. -/
theorem C7_shape_rejected_locally :
    ∀ (fetch : Nat → Except Unit MarketParameters) (salt : Nat) (i : OrderIntent),
      validIntentShape i = false →
      buildOrder fetch salt i = ([], .error (.construction "intent shape mismatch")) := by
  intro fetch salt i h
  simp [buildOrder, h]

/-- A limit intent missing its price: an invalid shape. -/
def intentBad : OrderIntent :=
  { side := .buy, tokenId := 7, kind := .limit, price := none,
    size := some { mantissa := 100, scale := 0 }, amount := none, expiration := none }

/-- A resolver whose every fetch fails; the shape check must reject the
intent before this is ever consulted. -/
def fetchNever : Nat → Except Unit MarketParameters :=
  fun _ => .error ()

theorem C7_witness :
    validIntentShape intentBad = false ∧
    buildOrder fetchNever 1 intentBad = ([], .error (.construction "intent shape mismatch")) :=
  ⟨by decide, C7_shape_rejected_locally fetchNever 1 intentBad (by decide)⟩

/-- Association lookup by key over a list of pairs. -/
def alookup {β : Type} (k : Nat) : List (Nat × β) → Option β
  | [] => none
  | p :: rest => if p.1 = k then some p.2 else alookup k rest

/-- Remove every entry with the given key. -/
def removeKey {β : Type} (k : Nat) : List (Nat × β) → List (Nat × β)
  | [] => []
  | p :: rest => if p.1 = k then removeKey k rest else p :: removeKey k rest

/-- Remove every occurrence of the given task identifier. -/
def removeTask (t : Nat) : List Nat → List Nat
  | [] => []
  | x :: xs => if x = t then removeTask t xs else x :: removeTask t xs

/-- How many times a key occurs in a list. -/
def countKey (k : Nat) : List Nat → Nat
  | [] => 0
  | x :: xs => (if x = k then 1 else 0) + countKey k xs

/-- Modelled from the spec: the state of the market-parameter cache,
which is not among the embedded files: the resolved entries, the pending
slot per key holding the identifiers of the waiting tasks, the log of
network fetches issued, and the results the callers have observed as
task, key and value triples. -/
structure CacheState where
  resolved : List (Nat × MarketParameters)
  pending : List (Nat × List Nat)
  fetchLog : List Nat
  observed : List (Nat × Nat × MarketParameters)
deriving DecidableEq

/-- Modelled from the spec: the interleaved events of concurrent callers
of get_or_fetch: a task starting a call for a key, the in-flight fetch of
a key completing with a value, the in-flight fetch of a key failing, and
a waiting task cancelling its wait. -/
inductive CacheEvent where
  | start (t k : Nat)
  | complete (k : Nat) (v : MarketParameters)
  | fail (k : Nat)
  | cancel (t k : Nat)
deriving DecidableEq

/-- The key an event concerns. -/
def eventKey : CacheEvent → Nat
  | .start _ k => k
  | .complete k _ => k
  | .fail k => k
  | .cancel _ k => k

/-- Modelled from the spec: one step of the cache. A starting task
observes a resolved value immediately, joins the pending slot of its key
when a fetch is already in flight, and otherwise opens the pending slot
and issues the one fetch. A completing fetch resolves its key, hands the
value to every waiter and clears the pending slot. A failing fetch
clears the pending slot without caching anything. A cancelling waiter
leaves the slot while the remaining waiters continue. -/
def cacheStep (s : CacheState) : CacheEvent → CacheState
  | .start t k =>
    match alookup k s.resolved with
    | some v => { s with observed := (t, k, v) :: s.observed }
    | none =>
      match alookup k s.pending with
      | some ws => { s with pending := (k, t :: ws) :: removeKey k s.pending }
      | none => { s with pending := (k, [t]) :: s.pending, fetchLog := k :: s.fetchLog }
  | .complete k v =>
    match alookup k s.pending with
    | some ws =>
      { s with resolved := (k, v) :: s.resolved,
               pending := removeKey k s.pending,
               observed := ws.map (fun t => (t, k, v)) ++ s.observed }
    | none => s
  | .fail k => { s with pending := removeKey k s.pending }
  | .cancel t k =>
    match alookup k s.pending with
    | some ws => { s with pending := (k, removeTask t ws) :: removeKey k s.pending }
    | none => s

/-- The cache before any call: nothing resolved, nothing pending, no
fetch issued, nothing observed. -/
def initCache : CacheState :=
  { resolved := [], pending := [], fetchLog := [], observed := [] }

/-- Run a whole interleaving from the initial cache. -/
def runCache (tr : List CacheEvent) : CacheState :=
  tr.foldl cacheStep initCache

theorem alookup_removeKey_self {β : Type} (k : Nat) (l : List (Nat × β)) :
    alookup k (removeKey k l) = none := by
  induction l with
  | nil => rfl
  | cons p rest ih =>
    by_cases h : p.1 = k
    · simp [removeKey, h, ih]
    · simp [removeKey, alookup, h, ih]

theorem alookup_removeKey_ne {β : Type} {k j : Nat} (h : j ≠ k) (l : List (Nat × β)) :
    alookup k (removeKey j l) = alookup k l := by
  induction l with
  | nil => rfl
  | cons p rest ih =>
    simp only [removeKey]
    by_cases hp : p.1 = j
    · rw [if_pos hp, ih, alookup]
      have hk : ¬ p.1 = k := fun hc => h (hp.symm.trans hc)
      rw [if_neg hk]
    · rw [if_neg hp]
      simp only [alookup]
      by_cases hk : p.1 = k
      · rw [if_pos hk, if_pos hk]
      · rw [if_neg hk, if_neg hk, ih]

/-- The in-flight deduplication invariant for one key: the key is never
both resolved and pending; before any activity no fetch was issued and
nothing was observed; once resolved or pending exactly one fetch was
issued; while unresolved nothing has been observed for the key; and once
resolved every observation of the key carries the resolved value. -/
structure CacheInv (k : Nat) (s : CacheState) : Prop where
  not_both : alookup k s.resolved = none ∨ alookup k s.pending = none
  count_zero : alookup k s.resolved = none → alookup k s.pending = none →
    countKey k s.fetchLog = 0
  count_resolved : ∀ v, alookup k s.resolved = some v → countKey k s.fetchLog = 1
  count_pending : ∀ ws, alookup k s.pending = some ws → countKey k s.fetchLog = 1
  obs_unresolved : alookup k s.resolved = none → ∀ p ∈ s.observed, p.2.1 ≠ k
  obs_resolved : ∀ v, alookup k s.resolved = some v → ∀ p ∈ s.observed, p.2.1 = k → p.2.2 = v

theorem initCache_inv (k : Nat) : CacheInv k initCache where
  not_both := Or.inl rfl
  count_zero := fun _ _ => rfl
  count_resolved := fun _ h => Option.noConfusion h
  count_pending := fun _ h => Option.noConfusion h
  obs_unresolved := fun _ p hp => absurd hp (List.not_mem_nil p)
  obs_resolved := fun _ h => Option.noConfusion h

theorem cacheStep_frame (k : Nat) (s : CacheState) (e : CacheEvent) (h : eventKey e ≠ k) :
    alookup k (cacheStep s e).resolved = alookup k s.resolved ∧
    alookup k (cacheStep s e).pending = alookup k s.pending ∧
    countKey k (cacheStep s e).fetchLog = countKey k s.fetchLog ∧
    (∀ p ∈ (cacheStep s e).observed, p ∈ s.observed ∨ p.2.1 ≠ k) := by
  cases e with
  | start t j =>
    have hj : j ≠ k := h
    simp only [cacheStep]
    cases hr : alookup j s.resolved with
    | some v =>
      refine ⟨rfl, rfl, rfl, ?_⟩
      intro p hp
      rcases List.mem_cons.mp hp with he | hold
      · right
        rw [he]
        exact hj
      · exact Or.inl hold
    | none =>
      cases hpd : alookup j s.pending with
      | some ws =>
        refine ⟨rfl, ?_, rfl, fun p hp => Or.inl hp⟩
        show alookup k ((j, t :: ws) :: removeKey j s.pending) = alookup k s.pending
        rw [alookup, if_neg hj, alookup_removeKey_ne hj]
      | none =>
        refine ⟨rfl, ?_, ?_, fun p hp => Or.inl hp⟩
        · show alookup k ((j, [t]) :: s.pending) = alookup k s.pending
          rw [alookup, if_neg hj]
        · show countKey k (j :: s.fetchLog) = countKey k s.fetchLog
          rw [countKey, if_neg hj, Nat.zero_add]
  | complete j v =>
    have hj : j ≠ k := h
    simp only [cacheStep]
    cases hpd : alookup j s.pending with
    | some ws =>
      refine ⟨?_, ?_, rfl, ?_⟩
      · show alookup k ((j, v) :: s.resolved) = alookup k s.resolved
        rw [alookup, if_neg hj]
      · exact alookup_removeKey_ne hj s.pending
      · intro p hp
        rcases List.mem_append.mp hp with hin | hold
        · rcases List.mem_map.mp hin with ⟨t, _, ht⟩
          right
          rw [← ht]
          exact hj
        · exact Or.inl hold
    | none => exact ⟨rfl, rfl, rfl, fun p hp => Or.inl hp⟩
  | fail j =>
    have hj : j ≠ k := h
    exact ⟨rfl, alookup_removeKey_ne hj s.pending, rfl, fun p hp => Or.inl hp⟩
  | cancel t j =>
    have hj : j ≠ k := h
    simp only [cacheStep]
    cases hpd : alookup j s.pending with
    | some ws =>
      refine ⟨rfl, ?_, rfl, fun p hp => Or.inl hp⟩
      show alookup k ((j, removeTask t ws) :: removeKey j s.pending) = alookup k s.pending
      rw [alookup, if_neg hj, alookup_removeKey_ne hj]
    | none => exact ⟨rfl, rfl, rfl, fun p hp => Or.inl hp⟩

theorem cacheStep_inv (k : Nat) (s : CacheState) (e : CacheEvent)
    (hinv : CacheInv k s) (hne : e ≠ .fail k) : CacheInv k (cacheStep s e) := by
  by_cases hk : eventKey e = k
  · cases e with
    | start t j =>
      have hj : j = k := hk
      subst hj
      simp only [cacheStep]
      cases hr : alookup j s.resolved with
      | some v =>
        exact
          { not_both := hinv.not_both
            count_zero := hinv.count_zero
            count_resolved := hinv.count_resolved
            count_pending := hinv.count_pending
            obs_unresolved := fun hres => absurd (hres.symm.trans hr) (fun hc => Option.noConfusion hc)
            obs_resolved := by
              intro v' hres p hp hpk
              have hv : v = v' := Option.some.inj (hr.symm.trans hres)
              rcases List.mem_cons.mp hp with he | hold
              · rw [he, ← hv]
              · exact hinv.obs_resolved v' hres p hold hpk }
      | none =>
        cases hpd : alookup j s.pending with
        | some ws =>
          refine
            { not_both := Or.inl hr
              count_zero := ?_
              count_resolved := ?_
              count_pending := fun ws' _ => hinv.count_pending ws hpd
              obs_unresolved := fun hres => hinv.obs_unresolved hres
              obs_resolved := fun v hres => hinv.obs_resolved v hres }
          · intro hres hpn
            rw [alookup, if_pos rfl] at hpn
            exact Option.noConfusion hpn
          · intro v hres
            exact absurd (hr.symm.trans hres) (fun hc => Option.noConfusion hc)
        | none =>
          refine
            { not_both := Or.inl hr
              count_zero := ?_
              count_resolved := ?_
              count_pending := ?_
              obs_unresolved := fun hres => hinv.obs_unresolved hres
              obs_resolved := fun v hres => hinv.obs_resolved v hres }
          · intro hres hpn
            rw [alookup, if_pos rfl] at hpn
            exact Option.noConfusion hpn
          · intro v hres
            exact absurd (hr.symm.trans hres) (fun hc => Option.noConfusion hc)
          · intro ws' hws
            show countKey j (j :: s.fetchLog) = 1
            rw [countKey, if_pos rfl, hinv.count_zero hr hpd]
    | complete j v =>
      have hj : j = k := hk
      subst hj
      simp only [cacheStep]
      cases hpd : alookup j s.pending with
      | none => exact hinv
      | some ws =>
        have hr : alookup j s.resolved = none := by
          rcases hinv.not_both with hx | hx
          · exact hx
          · rw [hpd] at hx
            exact Option.noConfusion hx
        refine
          { not_both := Or.inr (alookup_removeKey_self j s.pending)
            count_zero := ?_
            count_resolved := fun v' _ => hinv.count_pending ws hpd
            count_pending := ?_
            obs_unresolved := ?_
            obs_resolved := ?_ }
        · intro hres _
          rw [alookup, if_pos rfl] at hres
          exact Option.noConfusion hres
        · intro ws' hws
          rw [alookup_removeKey_self] at hws
          exact Option.noConfusion hws
        · intro hres
          rw [alookup, if_pos rfl] at hres
          exact Option.noConfusion hres
        · intro v' hres p hp hpk
          have hv : v = v' := by
            rw [alookup, if_pos rfl] at hres
            exact Option.some.inj hres
          rcases List.mem_append.mp hp with hin | hold
          · rcases List.mem_map.mp hin with ⟨t, _, ht⟩
            rw [← ht, ← hv]
          · exact absurd hpk (hinv.obs_unresolved hr p hold)
    | fail j =>
      have hj : j = k := hk
      subst hj
      exact absurd rfl hne
    | cancel t j =>
      have hj : j = k := hk
      subst hj
      simp only [cacheStep]
      cases hpd : alookup j s.pending with
      | none => exact hinv
      | some ws =>
        have hr : alookup j s.resolved = none := by
          rcases hinv.not_both with hx | hx
          · exact hx
          · rw [hpd] at hx
            exact Option.noConfusion hx
        refine
          { not_both := Or.inl hr
            count_zero := ?_
            count_resolved := ?_
            count_pending := fun ws' _ => hinv.count_pending ws hpd
            obs_unresolved := fun hres => hinv.obs_unresolved hres
            obs_resolved := fun v hres => hinv.obs_resolved v hres }
        · intro hres hpn
          rw [alookup, if_pos rfl] at hpn
          exact Option.noConfusion hpn
        · intro v hres
          exact absurd (hr.symm.trans hres) (fun hc => Option.noConfusion hc)
  · obtain ⟨h1, h2, h3, h4⟩ := cacheStep_frame k s e hk
    refine
      { not_both := ?_
        count_zero := ?_
        count_resolved := ?_
        count_pending := ?_
        obs_unresolved := ?_
        obs_resolved := ?_ }
    · rw [h1, h2]
      exact hinv.not_both
    · rw [h1, h2, h3]
      exact hinv.count_zero
    · rw [h1, h3]
      exact hinv.count_resolved
    · rw [h2, h3]
      exact hinv.count_pending
    · intro hres p hp
      rcases h4 p hp with hold | hnk
      · exact hinv.obs_unresolved (h1.symm.trans hres) p hold
      · exact hnk
    · intro v hres p hp hpk
      rcases h4 p hp with hold | hnk
      · exact hinv.obs_resolved v (h1.symm.trans hres) p hold hpk
      · exact absurd hpk hnk

theorem cacheStep_count_mono (k : Nat) (s : CacheState) (e : CacheEvent) :
    countKey k s.fetchLog ≤ countKey k (cacheStep s e).fetchLog := by
  cases e with
  | start t j =>
    simp only [cacheStep]
    cases hr : alookup j s.resolved with
    | some v => exact Nat.le_refl _
    | none =>
      cases hpd : alookup j s.pending with
      | some ws => exact Nat.le_refl _
      | none =>
        show countKey k s.fetchLog ≤ countKey k (j :: s.fetchLog)
        rw [countKey]
        exact Nat.le_add_left _ _
  | complete j v =>
    simp only [cacheStep]
    cases hpd : alookup j s.pending with
    | some ws => exact Nat.le_refl _
    | none => exact Nat.le_refl _
  | fail j => exact Nat.le_refl _
  | cancel t j =>
    simp only [cacheStep]
    cases hpd : alookup j s.pending with
    | some ws => exact Nat.le_refl _
    | none => exact Nat.le_refl _

theorem cacheStep_start_count (k t : Nat) (s : CacheState) (hinv : CacheInv k s) :
    1 ≤ countKey k (cacheStep s (.start t k)).fetchLog := by
  simp only [cacheStep]
  cases hr : alookup k s.resolved with
  | some v => exact Nat.le_of_eq (hinv.count_resolved v hr).symm
  | none =>
    cases hpd : alookup k s.pending with
    | some ws => exact Nat.le_of_eq (hinv.count_pending ws hpd).symm
    | none =>
      show 1 ≤ countKey k (k :: s.fetchLog)
      rw [countKey, if_pos rfl]
      exact Nat.le_add_right 1 _

theorem foldl_cache_inv (k : Nat) :
    ∀ (tr : List CacheEvent) (s : CacheState), CacheInv k s →
      (∀ e ∈ tr, e ≠ .fail k) → CacheInv k (tr.foldl cacheStep s) := by
  intro tr
  induction tr with
  | nil => intro s hinv _; exact hinv
  | cons e rest ih =>
    intro s hinv hne
    exact ih (cacheStep s e)
      (cacheStep_inv k s e hinv (hne e (List.mem_cons_self e rest)))
      (fun e' he' => hne e' (List.mem_cons_of_mem e he'))

theorem foldl_cache_count_mono (k : Nat) :
    ∀ (tr : List CacheEvent) (s : CacheState),
      countKey k s.fetchLog ≤ countKey k (tr.foldl cacheStep s).fetchLog := by
  intro tr
  induction tr with
  | nil => intro s; exact Nat.le_refl _
  | cons e rest ih =>
    intro s
    exact Nat.le_trans (cacheStep_count_mono k s e) (ih (cacheStep s e))

theorem foldl_cache_start_count (k : Nat) :
    ∀ (tr : List CacheEvent) (s : CacheState), CacheInv k s →
      (∀ e ∈ tr, e ≠ .fail k) → (∃ t, CacheEvent.start t k ∈ tr) →
      1 ≤ countKey k (tr.foldl cacheStep s).fetchLog := by
  intro tr
  induction tr with
  | nil =>
    intro s _ _ hex
    rcases hex with ⟨t, ht⟩
    exact absurd ht (List.not_mem_nil _)
  | cons e rest ih =>
    intro s hinv hne hex
    rcases hex with ⟨t, ht⟩
    rcases List.mem_cons.mp ht with he | hrest
    · rw [← he]
      exact Nat.le_trans (cacheStep_start_count k t s hinv)
        (foldl_cache_count_mono k rest (cacheStep s (.start t k)))
    · exact ih (cacheStep s e)
        (cacheStep_inv k s e hinv (hne e (List.mem_cons_self e rest)))
        (fun e' he' => hne e' (List.mem_cons_of_mem e he')) ⟨t, hrest⟩

/-- C1: over every interleaving of concurrent get_or_fetch callers in
which the fetch for a key never fails, at most one network fetch is
issued for that key, exactly one once some task has called get_or_fetch
for it, every result any caller observes for the key is identical, and
steps concerning other keys leave the resolved entry, the pending slot
and the fetch count of the key untouched, so callers for different keys
proceed independently. -/
theorem C1_cache_fetch_dedup :
    ∀ (tr : List CacheEvent) (k : Nat),
      CacheEvent.fail k ∉ tr →
      countKey k (runCache tr).fetchLog ≤ 1 ∧
      ((∃ t, CacheEvent.start t k ∈ tr) → countKey k (runCache tr).fetchLog = 1) ∧
      (∀ p ∈ (runCache tr).observed, ∀ q ∈ (runCache tr).observed,
        p.2.1 = k → q.2.1 = k → p.2.2 = q.2.2) ∧
      (∀ (s : CacheState) (e : CacheEvent), eventKey e ≠ k →
        alookup k (cacheStep s e).resolved = alookup k s.resolved ∧
        alookup k (cacheStep s e).pending = alookup k s.pending ∧
        countKey k (cacheStep s e).fetchLog = countKey k s.fetchLog) := by
  intro tr k hne
  have hne' : ∀ e ∈ tr, e ≠ .fail k := fun e he hc => hne (hc ▸ he)
  have hinv : CacheInv k (runCache tr) :=
    foldl_cache_inv k tr initCache (initCache_inv k) hne'
  have hle : countKey k (runCache tr).fetchLog ≤ 1 := by
    cases hr : alookup k (runCache tr).resolved with
    | some v => exact Nat.le_of_eq (hinv.count_resolved v hr)
    | none =>
      cases hpd : alookup k (runCache tr).pending with
      | some ws => exact Nat.le_of_eq (hinv.count_pending ws hpd)
      | none =>
        rw [hinv.count_zero hr hpd]
        exact Nat.zero_le 1
  refine ⟨hle, ?_, ?_, ?_⟩
  · intro hex
    exact Nat.le_antisymm hle
      (foldl_cache_start_count k tr initCache (initCache_inv k) hne' hex)
  · intro p hp q hq hpk hqk
    cases hr : alookup k (runCache tr).resolved with
    | some v =>
      rw [hinv.obs_resolved v hr p hp hpk, hinv.obs_resolved v hr q hq hqk]
    | none => exact absurd hpk (hinv.obs_unresolved hr p hp)
  · intro s e hek
    obtain ⟨h1, h2, h3, _⟩ := cacheStep_frame k s e hek
    exact ⟨h1, h2, h3⟩

/-- A demonstration interleaving for key seven: two tasks start while
the key is uncached, the single in-flight fetch completes, and a third
task starts afterwards and hits the cache. -/
def demoTrace : List CacheEvent :=
  [.start 1 7, .start 2 7, .complete 7 demoMarket, .start 3 7]

theorem C1_witness :
    CacheEvent.fail 7 ∉ demoTrace ∧
    countKey 7 (runCache demoTrace).fetchLog = 1 ∧
    (∀ p ∈ (runCache demoTrace).observed, ∀ q ∈ (runCache demoTrace).observed,
      p.2.1 = 7 → q.2.1 = 7 → p.2.2 = q.2.2) := by
  have hne : CacheEvent.fail 7 ∉ demoTrace := by decide
  have h := C1_cache_fetch_dedup demoTrace 7 hne
  exact ⟨hne, h.2.1 ⟨1, by decide⟩, h.2.2.1⟩
